import Mathlib

/-!
Verification development for the trajectory-window generator in
`ros/src/waypoint_updater/waypoint_updater.py`.

The Python node is embedded shallowly:
* waypoints carry a pose (3D position + orientation quaternion) and a target
  linear speed (`twist.twist.linear.x`), modelled over the reals;
* Python list indexing (including negative indices and `IndexError`) is
  modelled by an `Option`-valued lookup, so a `none` result anywhere means the
  original program raises;
* the per-tick body of `generate_lane`, the helper `decelerate_waypoints`, the
  arc-length routine `distance` and the forward/behind disambiguation in
  `get_closest_waypoint_idx` are translated statement by statement.
-/

namespace WaypointUpdater

/-- 3D position of a route point (`pose.pose.position`). -/
structure Position where
  x : ℝ
  y : ℝ
  z : ℝ

/-- Pose carried by a waypoint: a position plus an orientation quaternion. -/
structure Pose where
  position : Position
  orientation : ℝ × ℝ × ℝ × ℝ

/-- A route point: pose plus target linear speed (`twist.twist.linear.x`). -/
structure Waypoint where
  pose : Pose
  speed : ℝ

instance : Inhabited Position := ⟨⟨0, 0, 0⟩⟩

instance : Inhabited Pose := ⟨⟨default, (0, 0, 0, 1)⟩⟩

instance : Inhabited Waypoint := ⟨⟨default, 0⟩⟩

/-- `LOOKAHEAD_WPS = 100`: number of waypoints published each tick. -/
def LOOKAHEAD_WPS : ℕ := 100

/-- `MAX_DECEL = 0.28`: deceleration factor used to update waypoints. -/
noncomputable def MAX_DECEL : ℝ := 0.28

/-- `MIN_STOP_TIME = 3.0`: minimum brake time. -/
noncomputable def MIN_STOP_TIME : ℝ := 3.0

/-- Python list indexing `l[i]`: nonnegative indices from the front, negative
indices from the back; `none` models an `IndexError`. -/
def pyGet {α : Type} (l : List α) (i : ℤ) : Option α :=
  if 0 ≤ i then l.get? i.toNat
  else if 0 ≤ (l.length : ℤ) + i then l.get? ((l.length : ℤ) + i).toNat
  else none

/-- Python `range(a, b)` as a list of integers. -/
def intRange (a b : ℤ) : List ℤ :=
  (List.range (b - a).toNat).map (fun k : ℕ => a + (k : ℤ))

/-- The straight-line 3D distance `dl` used inside `distance`. -/
noncomputable def dl (a b : Position) : ℝ :=
  Real.sqrt ((a.x - b.x) ^ 2 + (a.y - b.y) ^ 2 + (a.z - b.z) ^ 2)

/-- Loop body of `WaypointUpdater.distance`: `prev` is the mutable `wp1`
variable, trailing one step behind the loop index. -/
noncomputable def distAux (waypoints : List Waypoint) : ℤ → List ℤ → Option ℝ
  | _, [] => some 0
  | prev, i :: rest => do
      let a ← pyGet waypoints prev
      let b ← pyGet waypoints i
      let d ← distAux waypoints i rest
      pure (dl a.pose.position b.pose.position + d)

/-- `WaypointUpdater.distance(waypoints, wp1, wp2)`: cumulative arc length of
the walk `for i in range(wp1, wp2+1)`. -/
noncomputable def distance (waypoints : List Waypoint) (wp1 wp2 : ℤ) : Option ℝ :=
  distAux waypoints wp1 (intRange wp1 (wp2 + 1))

/-- `stop_idx = max(self.stopline_wp_idx - closest_idx - 4, 0)` computed in the
loop of `decelerate_waypoints`. -/
def stop_idx (stopline_wp_idx closest_idx : ℤ) : ℤ :=
  max (stopline_wp_idx - closest_idx - 4) 0

/-- One iteration of the loop in `decelerate_waypoints`, producing the output
waypoint for window-local index `i`. -/
noncomputable def decelPoint (stopline_wp_idx : ℤ) (waypoints : List Waypoint)
    (closest_idx : ℤ) (i : ℕ) (wp : Waypoint) : Option Waypoint := do
  let dist ← distance waypoints (i : ℤ) (stop_idx stopline_wp_idx closest_idx)
  let vel0 := MAX_DECEL * dist
  let vel := if vel0 < 1 then 0 else vel0
  pure { pose := wp.pose, speed := min vel wp.speed }

/-- The `for i, wp in enumerate(waypoints)` loop of `decelerate_waypoints`. -/
noncomputable def decelGo (stopline_wp_idx : ℤ) (all : List Waypoint)
    (closest_idx : ℤ) : ℕ → List Waypoint → Option (List Waypoint)
  | _, [] => some []
  | i, wp :: rest => do
      let p ← decelPoint stopline_wp_idx all closest_idx i wp
      let ps ← decelGo stopline_wp_idx all closest_idx (i + 1) rest
      pure (p :: ps)

/-- `WaypointUpdater.decelerate_waypoints(waypoints, closest_idx)` with the
node state `self.stopline_wp_idx` passed explicitly. -/
noncomputable def decelerate_waypoints (stopline_wp_idx : ℤ)
    (waypoints : List Waypoint) (closest_idx : ℤ) : Option (List Waypoint) :=
  decelGo stopline_wp_idx waypoints closest_idx 0 waypoints

/-- The window slice `self.base_waypoints.waypoints[closest_idx:farthest_idx]`
(Python slice semantics: clipped at the end of the route, no wraparound). -/
def extractWindow (route : List Waypoint) (start size : ℕ) : List Waypoint :=
  (route.drop start).take size

/-- `WaypointUpdater.generate_lane`, one tick: node state
(`stopline_wp_idx`, `current_vel`, `is_braking`) passed explicitly, result is
the published window together with the updated `is_braking`; `none` models a
runtime fault (IndexError) inside the tick. -/
noncomputable def generate_lane (route : List Waypoint) (closest_idx : ℕ)
    (stopline_wp_idx : ℤ) (current_vel : ℝ) (is_braking : Bool) :
    Option (List Waypoint × Bool) :=
  let farthest_idx : ℤ := (closest_idx : ℤ) + (LOOKAHEAD_WPS : ℤ)
  let non_zero_current_vel : ℝ := if current_vel < 0.1 then 0.1 else current_vel
  let new_base_waypoints := extractWindow route closest_idx LOOKAHEAD_WPS
  if stopline_wp_idx = -1 ∨ farthest_idx ≤ stopline_wp_idx then
    some (new_base_waypoints, false)
  else do
    let d ← distance route (closest_idx : ℤ) stopline_wp_idx
    if d / non_zero_current_vel < MIN_STOP_TIME ∧ is_braking = false then
      some (new_base_waypoints, is_braking)
    else do
      let out ← decelerate_waypoints stopline_wp_idx new_base_waypoints (closest_idx : ℤ)
      some (out, true)

/-- The forward/behind disambiguation of `get_closest_waypoint_idx`: the
KD-tree nearest-neighbour query result is passed in as `closest_idx`, the rest
is the half-plane test of the source. -/
noncomputable def get_closest_waypoint_idx (waypoints_2d : List (ℝ × ℝ))
    (pose : ℝ × ℝ) (closest_idx : ℕ) : Option ℕ := do
  let closest_coord ← pyGet waypoints_2d (closest_idx : ℤ)
  let prev_coord ← pyGet waypoints_2d ((closest_idx : ℤ) - 1)
  let val := (closest_coord.1 - prev_coord.1) * (pose.1 - closest_coord.1)
    + (closest_coord.2 - prev_coord.2) * (pose.2 - closest_coord.2)
  if 0 < val then
    pure ((closest_idx + 1) % waypoints_2d.length)
  else
    pure closest_idx

/-- A sequence of ticks of the driver loop acting on the brake flag: each tick
feeds the resolved index, the stop-line index and the current speed into
`generate_lane` and threads `is_braking`. -/
noncomputable def runTicks (route : List Waypoint) :
    Bool → List (ℕ × ℤ × ℝ) → Option Bool
  | st, [] => some st
  | st, t :: rest => do
      let r ← generate_lane route t.1 t.2.1 t.2.2 st
      runTicks route r.2 rest

/-- Position of the waypoint at index `i` (default on out-of-range, used only
under in-range hypotheses). -/
def posAt (ws : List Waypoint) (i : ℕ) : Position :=
  (ws.getD i default).pose.position

/-- Emitted speed of the waypoint at index `i`. -/
def getSpeed (l : List Waypoint) (i : ℕ) : ℝ :=
  (l.getD i default).speed

/-- Arc length of `n` consecutive steps starting at index `a`: the value
`distance` computes on a valid walk. -/
noncomputable def arcLength (ws : List Waypoint) : ℕ → ℕ → ℝ
  | _, 0 => 0
  | a, n + 1 => dl (posAt ws a) (posAt ws (a + 1)) + arcLength ws (a + 1) n

/-- Waypoint at x-position `x` on the x-axis with target speed `v`. -/
noncomputable def mkWp (x v : ℝ) : Waypoint :=
  ⟨⟨⟨x, 0, 0⟩, (0, 0, 0, 1)⟩, v⟩

/-- A route of five identical points, used to exhibit the out-of-range fault. -/
noncomputable def route5 : List Waypoint :=
  List.replicate 5 (mkWp 0 10)

/-- Singleton window fixture. -/
noncomputable def wsSingle : List Waypoint :=
  [mkWp 0 10]

/-- Two unit-spaced points with equal speeds. -/
noncomputable def wsPair : List Waypoint :=
  [mkWp 0 10, mkWp 1 10]

/-- Three points whose original speeds increase along the window: the first
point has original speed 0, the two others speed 10, with a 10-unit gap
between the second and third point. -/
noncomputable def wsTriple : List Waypoint :=
  [mkWp 0 0, mkWp 0 10, mkWp 10 10]

/-- Two coincident points with speed 5. -/
noncomputable def wsSame2 : List Waypoint :=
  [mkWp 0 5, mkWp 0 5]

/-- The end-to-end example route: 200 points spaced one unit apart along the
x-axis, all with target speed 10. -/
noncomputable def route200 : List Waypoint :=
  (List.range 200).map (fun k : ℕ => mkWp (k : ℝ) 10)

/-- The lookahead window of the end-to-end example: route points 50..149. -/
noncomputable def w50 : List Waypoint :=
  extractWindow route200 50 LOOKAHEAD_WPS

/-- The two-point 2D route used to witness the position-resolution claim. -/
noncomputable def pts2 : List (ℝ × ℝ) := [(0, 0), (1, 0)]

/-! ### Basic lemmas about the embedded primitives -/

theorem pyGet_ofNat {α : Type} (l : List α) (i : ℕ) : pyGet l (i : ℤ) = l.get? i := by
  simp [pyGet]

theorem pyGet_some_of_lt {α : Type} [Inhabited α] (l : List α) (i : ℕ)
    (h : i < l.length) : pyGet l (i : ℤ) = some (l.getD i default) := by
  rw [pyGet_ofNat, List.getD_eq_get? l i default, List.get?_eq_get h]
  simp

theorem intRange_eq_nil (a b : ℤ) (h : b ≤ a) : intRange a b = [] := by
  have h0 : (b - a).toNat = 0 := by omega
  rw [intRange, h0, List.range_zero, List.map_nil]

theorem intRange_eq_cons (a b : ℤ) (h : a < b) :
    intRange a b = a :: intRange (a + 1) b := by
  have h1 : (b - a).toNat = (b - (a + 1)).toNat + 1 := by omega
  rw [intRange, h1, List.range_succ_eq_map]
  simp only [List.map_cons, List.map_map, Nat.cast_zero, add_zero]
  rw [intRange]
  congr 1
  apply List.map_congr_left
  intro k _
  simp only [Function.comp_apply]
  push_cast
  ring

theorem mem_intRange (a b x : ℤ) (h1 : a ≤ x) (h2 : x < b) : x ∈ intRange a b := by
  rw [intRange]
  simp only [List.mem_map, List.mem_range]
  exact ⟨(x - a).toNat, by omega, by omega⟩

theorem dl_self (a : Position) : dl a a = 0 := by
  simp [dl]

theorem dl_nonneg (a b : Position) : 0 ≤ dl a b := Real.sqrt_nonneg _

theorem dl_x_step (x v w : ℝ) : dl (mkWp x v).pose.position (mkWp (x + 1) w).pose.position = 1 := by
  have h : (x - (x + 1)) ^ 2 + ((0 : ℝ) - 0) ^ 2 + ((0 : ℝ) - 0) ^ 2 = 1 := by ring
  simp only [mkWp, dl]
  rw [h, Real.sqrt_one]

theorem arcLength_nonneg (ws : List Waypoint) (a n : ℕ) : 0 ≤ arcLength ws a n := by
  induction n generalizing a with
  | zero => simp [arcLength]
  | succ n ih =>
      rw [arcLength]
      exact add_nonneg (dl_nonneg _ _) (ih _)

theorem distance_eq_zero_of_lt (ws : List Waypoint) (i j : ℤ) (h : j < i) :
    distance ws i j = some 0 := by
  rw [distance, intRange_eq_nil _ _ (by omega), distAux]

theorem distAux_eval (ws : List Waypoint) :
    ∀ (n a : ℕ), a + n < ws.length →
      distAux ws (a : ℤ) (intRange ((a : ℤ) + 1) ((a : ℤ) + (n : ℤ) + 1)) =
        some (arcLength ws a n) := by
  intro n
  induction n with
  | zero =>
      intro a _
      rw [intRange_eq_nil _ _ (by omega), distAux, arcLength]
  | succ n ih =>
      intro a ha
      have hcons : intRange ((a : ℤ) + 1) ((a : ℤ) + ((n : ℤ) + 1) + 1) =
          ((a : ℤ) + 1) :: intRange ((a : ℤ) + 1 + 1) ((a : ℤ) + ((n : ℤ) + 1) + 1) := by
        exact intRange_eq_cons _ _ (by omega)
      have ha1 : a < ws.length := by omega
      have ha2 : a + 1 < ws.length := by omega
      have hrec : distAux ws ((a : ℤ) + 1)
          (intRange ((a : ℤ) + 1 + 1) ((a : ℤ) + ((n : ℤ) + 1) + 1)) =
          some (arcLength ws (a + 1) n) := by
        have := ih (a + 1) (by omega)
        have harg : ((a : ℤ) + 1 + 1) = (((a + 1 : ℕ) : ℤ) + 1) := by push_cast; ring
        have harg2 : ((a : ℤ) + ((n : ℤ) + 1) + 1) = (((a + 1 : ℕ) : ℤ) + (n : ℤ) + 1) := by
          push_cast; ring
        rw [harg, harg2]
        exact_mod_cast this
      push_cast
      rw [hcons, distAux, pyGet_some_of_lt ws a ha1]
      have hcast : (a : ℤ) + 1 = ((a + 1 : ℕ) : ℤ) := by push_cast; ring
      rw [hcast, pyGet_some_of_lt ws (a + 1) ha2]
      simp only [Option.bind_eq_bind, Option.some_bind]
      rw [← hcast, hrec]
      simp only [Option.some_bind, arcLength, posAt]
      norm_num

theorem distance_eq_arc (ws : List Waypoint) (a b : ℕ) (hab : a ≤ b)
    (hb : b < ws.length) :
    distance ws (a : ℤ) (b : ℤ) = some (arcLength ws a (b - a)) := by
  rw [distance, intRange_eq_cons _ _ (by omega), distAux,
    pyGet_some_of_lt ws a (by omega)]
  have harg : (b : ℤ) + 1 = (a : ℤ) + ((b - a : ℕ) : ℤ) + 1 := by omega
  rw [harg]
  rw [distAux_eval ws (b - a) a (by omega)]
  simp [dl_self]

theorem distance_self (ws : List Waypoint) (i : ℕ) (h : i < ws.length) :
    distance ws (i : ℤ) (i : ℤ) = some 0 := by
  have := distance_eq_arc ws i i le_rfl h
  simpa [arcLength] using this

theorem distAux_pyGet_isSome (ws : List Waypoint) :
    ∀ (l : List ℤ) (prev : ℤ) (d : ℝ), distAux ws prev l = some d →
      ∀ x ∈ l, (pyGet ws x).isSome := by
  intro l
  induction l with
  | nil => intro prev d _ x hx; cases hx
  | cons i rest ih =>
      intro prev d hsome x hx
      rw [distAux] at hsome
      simp only [Option.bind_eq_bind, Option.bind_eq_some] at hsome
      obtain ⟨a, _, b, hb, c, hc, _⟩ := hsome
      rcases List.mem_cons.mp hx with h | h
      · subst h; simp [hb]
      · exact ih i c hc x h

theorem distance_some_valid (ws : List Waypoint) (a : ℕ) (b : ℤ) (d : ℝ)
    (hab : (a : ℤ) ≤ b) (h : distance ws (a : ℤ) b = some d) :
    b.toNat < ws.length ∧ b = (b.toNat : ℤ) := by
  have hmem : b ∈ intRange (a : ℤ) (b + 1) := mem_intRange _ _ _ hab (by omega)
  have := distAux_pyGet_isSome ws _ _ _ h b hmem
  have hb0 : 0 ≤ b := by omega
  constructor
  · rw [pyGet] at this
    rw [if_pos hb0] at this
    rw [Option.isSome_iff_exists] at this
    obtain ⟨w, hw⟩ := this
    by_contra hlen
    push_neg at hlen
    rw [List.get?_eq_none.mpr hlen] at hw
    cases hw
  · omega

theorem distance_isSome (ws : List Waypoint) (a : ℕ) (b : ℤ)
    (h : b < (a : ℤ) ∨ ((a : ℤ) ≤ b ∧ b < (ws.length : ℤ))) :
    (distance ws (a : ℤ) b).isSome := by
  rcases h with h | ⟨h1, h2⟩
  · rw [distance_eq_zero_of_lt ws _ _ h]; rfl
  · have hb : b = ((b.toNat : ℕ) : ℤ) := by omega
    rw [hb, distance_eq_arc ws a b.toNat (by omega) (by omega)]
    rfl

/-! ### Lemmas about the deceleration rewrite -/

theorem decelPoint_eq_map (s : ℤ) (all : List Waypoint) (c : ℤ) (i : ℕ) (wp : Waypoint) :
    decelPoint s all c i wp =
      (distance all (i : ℤ) (stop_idx s c)).map
        (fun d => ⟨wp.pose, min (if MAX_DECEL * d < 1 then 0 else MAX_DECEL * d) wp.speed⟩) := by
  rw [decelPoint]
  cases distance all (i : ℤ) (stop_idx s c) <;> rfl

theorem decelGo_sound (s : ℤ) (all : List Waypoint) (c : ℤ) :
    ∀ (rest : List Waypoint) (i : ℕ) (out : List Waypoint),
      decelGo s all c i rest = some out →
        out.length = rest.length ∧
        ∀ k, k < rest.length →
          decelPoint s all c (i + k) (rest.getD k default) = some (out.getD k default) := by
  intro rest
  induction rest with
  | nil =>
      intro i out h
      rw [decelGo] at h
      cases h
      exact ⟨rfl, fun k hk => absurd hk (by simp)⟩
  | cons wp tail ih =>
      intro i out h
      rw [decelGo] at h
      simp only [Option.bind_eq_bind, Option.bind_eq_some] at h
      obtain ⟨p, hp, ps, hps, hout⟩ := h
      cases hout
      obtain ⟨hlen, htail⟩ := ih (i + 1) ps hps
      constructor
      · simpa using hlen
      · intro k hk
        cases k with
        | zero => simpa using hp
        | succ k =>
            have hk2 : k < tail.length := by simpa using hk
            have := htail k hk2
            have harith : i + 1 + k = i + (k + 1) := by omega
            rw [harith] at this
            simpa using this

theorem decelGo_isSome (s : ℤ) (all : List Waypoint) (c : ℤ) :
    ∀ (rest : List Waypoint) (i : ℕ),
      (∀ k, i ≤ k → k < i + rest.length → (distance all (k : ℤ) (stop_idx s c)).isSome) →
      (decelGo s all c i rest).isSome := by
  intro rest
  induction rest with
  | nil => intro i _; rw [decelGo]; rfl
  | cons wp tail ih =>
      intro i hall
      have hp : (decelPoint s all c i wp).isSome := by
        rw [decelPoint_eq_map]
        have := hall i le_rfl (by simp)
        rw [Option.isSome_iff_exists] at this
        obtain ⟨d, hd⟩ := this
        rw [hd]
        rfl
      have hrest : (decelGo s all c (i + 1) tail).isSome := by
        apply ih
        intro k hk1 hk2
        exact hall k (by omega) (by simp at hk2 ⊢; omega)
      rw [Option.isSome_iff_exists] at hp hrest
      obtain ⟨p, hp⟩ := hp
      obtain ⟨ps, hps⟩ := hrest
      rw [decelGo]
      simp [hp, hps]

theorem stop_idx_nonneg (s c : ℤ) : 0 ≤ stop_idx s c := le_max_right _ _

theorem decelerate_isSome (s : ℤ) (ws : List Waypoint) (c : ℤ)
    (h : stop_idx s c < (ws.length : ℤ) ∨ ws = []) :
    (decelerate_waypoints s ws c).isSome := by
  rcases h with h | h
  · rw [decelerate_waypoints]
    apply decelGo_isSome
    intro k _ hk
    apply distance_isSome
    have h0 : 0 ≤ stop_idx s c := stop_idx_nonneg s c
    by_cases hks : stop_idx s c < (k : ℤ)
    · exact Or.inl hks
    · exact Or.inr ⟨by omega, by omega⟩
  · subst h
    rw [decelerate_waypoints, decelGo]
    rfl

/-- The clamped target speed `if v < 1 then 0 else v` is monotone. -/
theorem clamp_mono (a b : ℝ) (h : a ≤ b) :
    (if a < 1 then (0 : ℝ) else a) ≤ (if b < 1 then (0 : ℝ) else b) := by
  by_cases ha : a < 1
  · rw [if_pos ha]
    by_cases hb : b < 1
    · rw [if_pos hb]
    · rw [if_neg hb]; linarith
  · rw [if_neg ha, if_neg (by intro hb; exact ha (lt_of_le_of_lt h hb))]
    exact h

/-- Remaining distance to the stop offset is non-increasing along the window. -/
theorem distance_antitone_step (ws : List Waypoint) (t : ℤ) (ht : 0 ≤ t) (i : ℕ)
    (hi : i + 1 < ws.length) (d₁ d₂ : ℝ)
    (h₁ : distance ws (i : ℤ) t = some d₁)
    (h₂ : distance ws ((i : ℤ) + 1) t = some d₂) :
    d₂ ≤ d₁ := by
  by_cases hti : t < (i : ℤ)
  · rw [distance_eq_zero_of_lt ws _ _ hti] at h₁
    rw [distance_eq_zero_of_lt ws _ _ (by omega)] at h₂
    cases h₁; cases h₂
    exact le_rfl
  · push_neg at hti
    by_cases hti1 : t < (i : ℤ) + 1
    · have hteq : t = (i : ℤ) := by omega
      subst hteq
      rw [distance_self ws i (by omega)] at h₁
      rw [distance_eq_zero_of_lt ws _ _ (by omega)] at h₂
      cases h₁; cases h₂
      exact le_rfl
    · push_neg at hti1
      have hvalid := distance_some_valid ws i t d₁ (by omega) h₁
      obtain ⟨htlen, htnat⟩ := hvalid
      have h₁a := distance_eq_arc ws i t.toNat (by omega) htlen
      rw [← htnat] at h₁a
      rw [h₁] at h₁a
      have hcast : ((i : ℤ) + 1) = ((i + 1 : ℕ) : ℤ) := by push_cast; ring
      have h₂a := distance_eq_arc ws (i + 1) t.toNat (by omega) htlen
      rw [← hcast, ← htnat] at h₂a
      rw [h₂] at h₂a
      have hd₁ : d₁ = arcLength ws i (t.toNat - i) := by exact Option.some.inj h₁a
      have hd₂ : d₂ = arcLength ws (i + 1) (t.toNat - (i + 1)) := by exact Option.some.inj h₂a
      have hsplit : t.toNat - i = (t.toNat - (i + 1)) + 1 := by omega
      rw [hd₁, hd₂, hsplit, arcLength]
      have := dl_nonneg (posAt ws i) (posAt ws (i + 1))
      linarith

/-! ### Lemmas about the window slice and the per-tick branch structure -/

theorem extractWindow_length (route : List Waypoint) (start size : ℕ) :
    (extractWindow route start size).length = min size (route.length - start) := by
  simp [extractWindow]

theorem extractWindow_get? (route : List Waypoint) (start size k : ℕ)
    (hk : k < size) :
    (extractWindow route start size).get? k = route.get? (start + k) := by
  rw [extractWindow, List.get?_take hk, List.get?_drop]

theorem generate_lane_outside (route : List Waypoint) (c : ℕ) (s : ℤ) (v : ℝ)
    (b : Bool) (h : s = -1 ∨ (c : ℤ) + (LOOKAHEAD_WPS : ℤ) ≤ s) :
    generate_lane route c s v b = some (extractWindow route c LOOKAHEAD_WPS, false) := by
  simp only [generate_lane]
  rw [if_pos h]

theorem generate_lane_inside (route : List Waypoint) (c : ℕ) (s : ℤ) (v : ℝ)
    (b : Bool) (h : ¬(s = -1 ∨ (c : ℤ) + (LOOKAHEAD_WPS : ℤ) ≤ s)) :
    generate_lane route c s v b =
      (distance route (c : ℤ) s).bind (fun d =>
        if d / (if v < 0.1 then 0.1 else v) < MIN_STOP_TIME ∧ b = false then
          some (extractWindow route c LOOKAHEAD_WPS, b)
        else
          (decelerate_waypoints s (extractWindow route c LOOKAHEAD_WPS) (c : ℤ)).map
            (fun out => (out, true))) := by
  simp only [generate_lane]
  rw [if_neg h]
  cases hd : distance route (c : ℤ) s with
  | none => rfl
  | some d =>
      simp only [Option.bind_eq_bind, Option.some_bind]
      by_cases hc : d / (if v < 0.1 then 0.1 else v) < MIN_STOP_TIME ∧ b = false
      · rw [if_pos hc, if_pos hc]
      · rw [if_neg hc, if_neg hc]
        cases decelerate_waypoints s (extractWindow route c LOOKAHEAD_WPS) (c : ℤ) <;> rfl

theorem generate_lane_braking (route : List Waypoint) (c : ℕ) (s : ℤ) (v : ℝ)
    (h : ¬(s = -1 ∨ (c : ℤ) + (LOOKAHEAD_WPS : ℤ) ≤ s)) (d : ℝ)
    (hd : distance route (c : ℤ) s = some d) :
    generate_lane route c s v true =
      (decelerate_waypoints s (extractWindow route c LOOKAHEAD_WPS) (c : ℤ)).map
        (fun out => (out, true)) := by
  rw [generate_lane_inside route c s v true h, hd]
  simp only [Option.some_bind]
  rw [if_neg (by simp)]

theorem generate_lane_true_keeps (route : List Waypoint) (c : ℕ) (s : ℤ) (v : ℝ)
    (h : ¬(s = -1 ∨ (c : ℤ) + (LOOKAHEAD_WPS : ℤ) ≤ s)) (r : List Waypoint × Bool)
    (hr : generate_lane route c s v true = some r) : r.2 = true := by
  rw [generate_lane_inside route c s v true h] at hr
  simp only [Option.bind_eq_bind, Option.bind_eq_some] at hr
  obtain ⟨d, _, hr2⟩ := hr
  rw [if_neg (by simp)] at hr2
  simp only [Option.map_eq_some'] at hr2
  obtain ⟨out, _, hout⟩ := hr2
  rw [← hout]

/-! ### Claim C6: window extraction -/

/-- C6: for every route and start index, the extracted window equals
`route[start : start+size]` in order: exactly `size` points when
`start + size ≤ len(route)`, exactly `len(route) - start` points otherwise,
with no wraparound past the route end and no error on a short final window. -/
theorem window_extraction_spec (route : List Waypoint) (start size : ℕ) :
    (start + size ≤ route.length → (extractWindow route start size).length = size) ∧
    (route.length < start + size →
      (extractWindow route start size).length = route.length - start) ∧
    (∀ k, k < (extractWindow route start size).length →
      (extractWindow route start size).get? k = route.get? (start + k)) := by
  refine ⟨?_, ?_, ?_⟩
  · intro h; rw [extractWindow_length]; omega
  · intro _; rw [extractWindow_length]; omega
  · intro k hk
    apply extractWindow_get?
    rw [extractWindow_length] at hk
    omega

/-- Witness for C6 at a concrete short final window: a 2-point route sliced
from index 1 with the lookahead size yields exactly one point, in order. -/
theorem window_extraction_spec_witness :
    (extractWindow wsPair 1 LOOKAHEAD_WPS).length = 1 ∧
    (extractWindow wsPair 1 LOOKAHEAD_WPS).get? 0 = wsPair.get? 1 := by
  constructor
  · have h := (window_extraction_spec wsPair 1 LOOKAHEAD_WPS).2.1
      (by simp [wsPair, LOOKAHEAD_WPS])
    simpa [wsPair] using h
  · have h := (window_extraction_spec wsPair 1 LOOKAHEAD_WPS).2.2 0
      (by simp [extractWindow_length, wsPair, LOOKAHEAD_WPS])
    simpa using h

/-! ### Claim C8: no-stop pass-through -/

/-- C8: on every tick where the stop-line index is the sentinel `-1` or at
least `closestIdx + windowSize`, the extracted window is emitted completely
unchanged (it is exactly the route slice) and the brake flag is set to
`false`. -/
theorem no_stop_passthrough (route : List Waypoint) (c : ℕ) (s : ℤ) (v : ℝ)
    (b : Bool) (h : s = -1 ∨ (c : ℤ) + (LOOKAHEAD_WPS : ℤ) ≤ s) :
    generate_lane route c s v b = some (extractWindow route c LOOKAHEAD_WPS, false) ∧
    ∀ k, k < (extractWindow route c LOOKAHEAD_WPS).length →
      (extractWindow route c LOOKAHEAD_WPS).get? k = route.get? (c + k) := by
  refine ⟨generate_lane_outside route c s v b h, ?_⟩
  intro k hk
  apply extractWindow_get?
  rw [extractWindow_length] at hk
  omega

/-- Witness for C8: sentinel stop index on a 2-point route passes the whole
route through and clears the brake flag, even from a braking state. -/
theorem no_stop_passthrough_witness :
    generate_lane wsPair 0 (-1) 0 true = some (wsPair, false) := by
  have h := (no_stop_passthrough wsPair 0 (-1) 0 true (Or.inl rfl)).1
  rw [show extractWindow wsPair 0 LOOKAHEAD_WPS = wsPair from rfl] at h
  exact h

/-! ### Claim C2: brake hysteresis -/

/-- C2: once the brake flag is true it stays true on every subsequent tick
(the escape valve is skipped and the deceleration rewrite is applied,
whatever the recomputed time estimate), until a tick whose stop index is the
sentinel or at least `closestIdx + windowSize`, at which point it resets to
`false`. -/
theorem brake_hysteresis (route : List Waypoint) :
    (∀ (c : ℕ) (s : ℤ) (v : ℝ),
      (s = -1 ∨ (c : ℤ) + (LOOKAHEAD_WPS : ℤ) ≤ s) →
        generate_lane route c s v true =
          some (extractWindow route c LOOKAHEAD_WPS, false)) ∧
    (∀ (c : ℕ) (s : ℤ) (v d : ℝ),
      ¬(s = -1 ∨ (c : ℤ) + (LOOKAHEAD_WPS : ℤ) ≤ s) →
      distance route (c : ℤ) s = some d →
        generate_lane route c s v true =
          (decelerate_waypoints s (extractWindow route c LOOKAHEAD_WPS) (c : ℤ)).map
            (fun out => (out, true))) ∧
    (∀ (inps : List (ℕ × ℤ × ℝ)),
      (∀ t ∈ inps, ¬(t.2.1 = -1 ∨ (t.1 : ℤ) + (LOOKAHEAD_WPS : ℤ) ≤ t.2.1)) →
      ∀ b, runTicks route true inps = some b → b = true) := by
  refine ⟨?_, ?_, ?_⟩
  · intro c s v h
    exact generate_lane_outside route c s v true h
  · intro c s v d h hd
    exact generate_lane_braking route c s v h d hd
  · intro inps
    induction inps with
    | nil =>
        intro _ b hb
        rw [runTicks] at hb
        cases hb
        rfl
    | cons t rest ih =>
        intro hall b hb
        rw [runTicks] at hb
        simp only [Option.bind_eq_bind, Option.bind_eq_some] at hb
        obtain ⟨r, hr, hrest⟩ := hb
        have ht := hall t (List.mem_cons_self t rest)
        have hr2 : r.2 = true := generate_lane_true_keeps route t.1 t.2.1 t.2.2 ht r hr
        rw [hr2] at hrest
        exact ih (fun u hu => hall u (List.mem_cons_of_mem t hu)) b hrest

/-- Witness for C2: a tick whose stop index has left the horizon resets the
brake flag from a braking state. -/
theorem brake_hysteresis_witness :
    generate_lane route5 3 (-1) 2 true = some (extractWindow route5 3 LOOKAHEAD_WPS, false) :=
  (brake_hysteresis route5).1 3 (-1) 2 (Or.inl rfl)

/-! ### Claim C3: escape valve -/

/-- C3: with the stop line inside the horizon, the remaining distance is the
arc length along the full route from `closestIdx` to `stopLineIdx`, the
effective speed is `max(currentSpeed, 0.1)` (never below `0.1`), and when
`remainingDistance / effectiveSpeed < 3.0` with the brake flag false the
window is passed through unchanged with the flag still false. -/
theorem escape_valve_passthrough (route : List Waypoint) (c : ℕ) (s : ℤ) (v : ℝ)
    (h : ¬(s = -1 ∨ (c : ℤ) + (LOOKAHEAD_WPS : ℤ) ≤ s)) :
    ((if v < 0.1 then (0.1 : ℝ) else v) = max v 0.1) ∧
    ((0.1 : ℝ) ≤ if v < 0.1 then (0.1 : ℝ) else v) ∧
    (∀ (hc : (c : ℤ) ≤ s) (hs : s < (route.length : ℤ)),
      distance route (c : ℤ) s = some (arcLength route c (s.toNat - c))) ∧
    (∀ d, distance route (c : ℤ) s = some d →
      d / max v 0.1 < MIN_STOP_TIME →
        generate_lane route c s v false =
          some (extractWindow route c LOOKAHEAD_WPS, false)) := by
  have hmax : (if v < 0.1 then (0.1 : ℝ) else v) = max v 0.1 := by
    by_cases hv : v < 0.1
    · rw [if_pos hv, max_eq_right hv.le]
    · push_neg at hv
      rw [if_neg (not_lt.mpr hv), max_eq_left hv]
  refine ⟨hmax, ?_, ?_, ?_⟩
  · rw [hmax]; exact le_max_right _ _
  · intro hc hs
    have hsnat : s = ((s.toNat : ℕ) : ℤ) := by omega
    rw [hsnat]
    exact distance_eq_arc route c s.toNat (by omega) (by omega)
  · intro d hd hlt
    rw [generate_lane_inside route c s v false h, hd]
    simp only [Option.some_bind]
    have hcond : (d / if v < 0.1 then (0.1 : ℝ) else v) < MIN_STOP_TIME ∧ True :=
      ⟨by rw [hmax]; exact hlt, trivial⟩
    rw [if_pos hcond]

/-- Evaluation: the arc length between the two coincident points of
`wsSame2` is zero, so `distance` returns zero there. -/
theorem dist_wsSame2 : distance wsSame2 ((0 : ℕ) : ℤ) (1 : ℤ) = some 0 := by
  have h := distance_eq_arc wsSame2 0 1 (by omega) (by simp [wsSame2])
  have harc : arcLength wsSame2 0 1 = 0 := by
    rw [arcLength, arcLength]
    have hp : posAt wsSame2 0 = posAt wsSame2 1 := by
      simp [posAt, wsSame2]
    rw [hp, dl_self]
    ring
  rw [harc] at h
  exact_mod_cast h

/-- Witness for C3: two coincident route points, stop line at index 1, speed
1: remaining distance 0, effective speed 1, time estimate 0 < 3, so the tick
passes the window through with the brake flag still false. -/
theorem escape_valve_passthrough_witness :
    generate_lane wsSame2 0 1 1 false = some (wsSame2, false) := by
  have h := (escape_valve_passthrough wsSame2 0 1 1 (by decide)).2.2.2 0
    (by exact_mod_cast dist_wsSame2)
    (by rw [zero_div]; rw [MIN_STOP_TIME]; norm_num)
  rw [show extractWindow wsSame2 0 LOOKAHEAD_WPS = wsSame2 from rfl] at h
  exact_mod_cast h

/-! ### Claim C4: position resolution -/

theorem pyGet_prev (pts : List (ℝ × ℝ)) (c : ℕ) (hne : pts ≠ []) (hc : c < pts.length) :
    pyGet pts ((c : ℤ) - 1) =
      some (pts.getD ((c + pts.length - 1) % pts.length) default) := by
  have hlen : 0 < pts.length := List.length_pos.mpr hne
  cases c with
  | zero =>
      have h1 : ¬(0 ≤ ((0 : ℕ) : ℤ) - 1) := by omega
      have h2 : 0 ≤ (pts.length : ℤ) + (((0 : ℕ) : ℤ) - 1) := by omega
      rw [pyGet, if_neg h1, if_pos h2]
      have h3 : ((pts.length : ℤ) + (((0 : ℕ) : ℤ) - 1)).toNat = pts.length - 1 := by omega
      rw [h3]
      have h4 : (0 + pts.length - 1) % pts.length = pts.length - 1 := by
        rw [show 0 + pts.length - 1 = pts.length - 1 from by omega]
        exact Nat.mod_eq_of_lt (by omega)
      rw [h4, List.getD_eq_get? pts _ default, List.get?_eq_get (by omega)]
      simp
  | succ m =>
      have h1 : (0 : ℤ) ≤ ((m + 1 : ℕ) : ℤ) - 1 := by omega
      rw [pyGet, if_pos h1]
      have h2 : (((m + 1 : ℕ) : ℤ) - 1).toNat = m := by omega
      rw [h2]
      have h3 : (m + 1 + pts.length - 1) % pts.length = m := by
        rw [show m + 1 + pts.length - 1 = m + pts.length from by omega,
          Nat.add_mod_right, Nat.mod_eq_of_lt (by omega)]
      rw [h3, List.getD_eq_get? pts _ default, List.get?_eq_get (by omega)]
      simp

/-- C4: for every non-empty route and pose, the resolver returns the nearest
index `c` unchanged when the dot product of `route[c] - route[c-1]` with
`pose - route[c]` is not positive, and `(c+1) mod routeLength` when it is
positive; the previous index wraps modulo the route length when `c = 0`, and
resolving at the last route point does not throw and wraps the advanced index
to 0. -/
theorem closest_waypoint_resolution (pts : List (ℝ × ℝ)) (pose : ℝ × ℝ) (c : ℕ)
    (hne : pts ≠ []) (hc : c < pts.length) :
    (get_closest_waypoint_idx pts pose c).isSome ∧
    ∀ cl pv : ℝ × ℝ,
      cl = pts.getD c default →
      pv = pts.getD ((c + pts.length - 1) % pts.length) default →
      ((0 < (cl.1 - pv.1) * (pose.1 - cl.1) + (cl.2 - pv.2) * (pose.2 - cl.2) →
          get_closest_waypoint_idx pts pose c = some ((c + 1) % pts.length)) ∧
       (¬0 < (cl.1 - pv.1) * (pose.1 - cl.1) + (cl.2 - pv.2) * (pose.2 - cl.2) →
          get_closest_waypoint_idx pts pose c = some c) ∧
       (c = pts.length - 1 →
        0 < (cl.1 - pv.1) * (pose.1 - cl.1) + (cl.2 - pv.2) * (pose.2 - cl.2) →
          get_closest_waypoint_idx pts pose c = some 0)) := by
  have hcl : pyGet pts (c : ℤ) = some (pts.getD c default) :=
    pyGet_some_of_lt pts c hc
  have hpv := pyGet_prev pts c hne hc
  have hbody : ∀ cl pv : ℝ × ℝ,
      cl = pts.getD c default →
      pv = pts.getD ((c + pts.length - 1) % pts.length) default →
      get_closest_waypoint_idx pts pose c =
        (if 0 < (cl.1 - pv.1) * (pose.1 - cl.1) + (cl.2 - pv.2) * (pose.2 - cl.2)
          then some ((c + 1) % pts.length) else some c) := by
    intro cl pv hcleq hpveq
    rw [get_closest_waypoint_idx, hcl, hpv, ← hcleq, ← hpveq]
    simp only [Option.bind_eq_bind, Option.some_bind]
    by_cases hval :
        0 < (cl.1 - pv.1) * (pose.1 - cl.1) + (cl.2 - pv.2) * (pose.2 - cl.2)
    · rw [if_pos hval, if_pos hval]
      rfl
    · rw [if_neg hval, if_neg hval]
      rfl
  constructor
  · rw [hbody (pts.getD c default) (pts.getD ((c + pts.length - 1) % pts.length) default)
      rfl rfl]
    by_cases hval : 0 < (pts.getD c default).1 -
        (pts.getD ((c + pts.length - 1) % pts.length) default).1 *
        (pose.1 - (pts.getD c default).1)
    all_goals
      split
      all_goals rfl
  · intro cl pv hcleq hpveq
    refine ⟨?_, ?_, ?_⟩
    · intro hval
      rw [hbody cl pv hcleq hpveq, if_pos hval]
    · intro hval
      rw [hbody cl pv hcleq hpveq, if_neg hval]
    · intro hlast hval
      rw [hbody cl pv hcleq hpveq, if_pos hval]
      have hlen : 0 < pts.length := List.length_pos.mpr hne
      have : (c + 1) % pts.length = 0 := by
        rw [show c + 1 = pts.length from by omega, Nat.mod_self]
      rw [this]

/-- Witness for C4: on a 2-point route, a query ahead of the last point fires
the half-plane test and the advanced index wraps to 0. -/
theorem closest_waypoint_resolution_witness :
    get_closest_waypoint_idx pts2 (2, 0) 1 = some 0 := by
  have h := (closest_waypoint_resolution pts2 (2, 0) 1
      (by simp [pts2]) (by simp [pts2])).2
      (pts2.getD 1 default) (pts2.getD ((1 + pts2.length - 1) % pts2.length) default)
      rfl rfl
  have hval : 0 < ((pts2.getD 1 default).1 -
        (pts2.getD ((1 + pts2.length - 1) % pts2.length) default).1) *
        ((2 : ℝ) - (pts2.getD 1 default).1) +
      ((pts2.getD 1 default).2 -
        (pts2.getD ((1 + pts2.length - 1) % pts2.length) default).2) *
        ((0 : ℝ) - (pts2.getD 1 default).2) := by
    norm_num [pts2]
  have hlast : 1 = pts2.length - 1 := by simp [pts2]
  exact h.2.2 hlast hval

/-! ### Claim C5: behaviour on malformed stop indices -/

/-- Counterexample to C5 as stated: on a 5-point route with the vehicle at
index 0, a stop-line index of 6 is inside the horizon (`6 < 0 + 100`) but
beyond the route length, and the tick faults (out-of-range indexing inside
`distance`), modelled by `none`. -/
theorem stopline_beyond_route_crashes :
    generate_lane route5 0 6 1 false = none := by
  have hd : distance route5 ((0 : ℕ) : ℤ) 6 = none := rfl
  rw [generate_lane_inside route5 0 6 1 false (by decide), hd]
  rfl

/-- C5 amended: the generator never faults provided the stop-line index is
the sentinel, or at least `closestIdx + windowSize` (handled by the
outside-horizon branch as no active stop), or smaller than the route length;
a stop index in `[routeLength, closestIdx + windowSize)` is the one family of
inputs that faults. -/
theorem generate_lane_total (route : List Waypoint) (c : ℕ) (s : ℤ) (v : ℝ)
    (b : Bool)
    (h : s = -1 ∨ (c : ℤ) + (LOOKAHEAD_WPS : ℤ) ≤ s ∨ s < (route.length : ℤ)) :
    (generate_lane route c s v b).isSome := by
  have hL : ((LOOKAHEAD_WPS : ℕ) : ℤ) = 100 := by rw [LOOKAHEAD_WPS]; rfl
  by_cases hout : s = -1 ∨ (c : ℤ) + (LOOKAHEAD_WPS : ℤ) ≤ s
  · rw [generate_lane_outside route c s v b hout]
    rfl
  · have hs : s < (route.length : ℤ) := by
      rcases h with h | h | h
      · exact absurd (Or.inl h) hout
      · exact absurd (Or.inr h) hout
      · exact h
    push_neg at hout
    rw [generate_lane_inside route c s v b (by push_neg; exact hout)]
    have hd : (distance route (c : ℤ) s).isSome := by
      apply distance_isSome
      by_cases hsc : s < (c : ℤ)
      · exact Or.inl hsc
      · exact Or.inr ⟨by omega, by omega⟩
    obtain ⟨d, hdval⟩ := Option.isSome_iff_exists.mp hd
    rw [hdval]
    simp only [Option.some_bind]
    by_cases hcond :
        d / (if v < 0.1 then (0.1 : ℝ) else v) < MIN_STOP_TIME ∧ b = false
    · rw [if_pos hcond]
      rfl
    · rw [if_neg hcond]
      have hdec :
          (decelerate_waypoints s (extractWindow route c LOOKAHEAD_WPS) (c : ℤ)).isSome := by
        apply decelerate_isSome
        by_cases hcl : route.length ≤ c
        · right
          have hlen0 : (extractWindow route c LOOKAHEAD_WPS).length = 0 := by
            rw [extractWindow_length]; omega
          exact List.length_eq_zero.mp hlen0
        · left
          push_neg at hcl
          rw [extractWindow_length, stop_idx]
          have hs100 : s < (c : ℤ) + 100 := by
            have := hout.2
            omega
          push_cast [Nat.cast_min]
          omega
      obtain ⟨out, houtv⟩ := Option.isSome_iff_exists.mp hdec
      rw [houtv]
      rfl

/-- Witness for C5 (amended): an empty route with the sentinel stop index
completes the tick without fault. -/
theorem generate_lane_total_witness :
    (generate_lane [] 0 (-1) 0 false).isSome :=
  generate_lane_total [] 0 (-1) 0 false (Or.inl rfl)

/-! ### Claim C1: the deceleration rewrite, point by point -/

/-- C1: each output point of the braking branch keeps the input point's pose
and gets speed `min(clamp(0.28 * dist), originalSpeed)` where
`dist` is the arc length along the window from the point to
`stopOffsetIdx = max(stopLineIdx - closestIdx - 4, 0)`, clamping any value
below `1.0` to `0`; in particular no emitted speed exceeds the route's own
speed at that point. -/
theorem decelerate_waypoints_pointwise_spec (s c : ℤ) (ws out : List Waypoint)
    (hout : decelerate_waypoints s ws c = some out) :
    out.length = ws.length ∧
    ∀ i, i < ws.length →
      ∃ d, distance ws (i : ℤ) (stop_idx s c) = some d ∧
        (out.getD i default).pose = (ws.getD i default).pose ∧
        (out.getD i default).speed =
          min (if MAX_DECEL * d < 1 then 0 else MAX_DECEL * d)
            (ws.getD i default).speed ∧
        (out.getD i default).speed ≤ (ws.getD i default).speed ∧
        ((i : ℤ) ≤ stop_idx s c → d = arcLength ws i ((stop_idx s c).toNat - i)) ∧
        (stop_idx s c < (i : ℤ) → d = 0) := by
  rw [decelerate_waypoints] at hout
  obtain ⟨hlen, hpt⟩ := decelGo_sound s ws c ws 0 out hout
  refine ⟨hlen, ?_⟩
  intro i hi
  have h := hpt i hi
  rw [zero_add, decelPoint_eq_map] at h
  rw [Option.map_eq_some'] at h
  obtain ⟨d, hd, heq⟩ := h
  refine ⟨d, hd, ?_, ?_, ?_, ?_, ?_⟩
  · rw [← heq]
  · rw [← heq]
  · rw [← heq]
    exact min_le_right _ _
  · intro hle
    obtain ⟨hslen, hsnat⟩ := distance_some_valid ws i (stop_idx s c) d hle hd
    have harc := distance_eq_arc ws i (stop_idx s c).toNat (by omega) hslen
    rw [← hsnat, hd] at harc
    exact Option.some.inj harc
  · intro hgt
    rw [distance_eq_zero_of_lt ws _ _ hgt] at hd
    exact (Option.some.inj hd).symm

/-- Evaluation: the deceleration rewrite on the singleton window `wsSingle`
with the stop line at index 0 emits the single point with speed 0. -/
theorem decel_wsSingle_eq :
    decelerate_waypoints 0 wsSingle 0 = some [⟨(mkWp 0 10).pose, 0⟩] := by
  have hstop : stop_idx 0 0 = 0 := by decide
  have hd : distance wsSingle ((0 : ℕ) : ℤ) (stop_idx 0 0) = some 0 := by
    rw [hstop]
    exact_mod_cast distance_self wsSingle 0 (by simp [wsSingle])
  have hp : decelPoint 0 wsSingle 0 0 (mkWp 0 10) = some ⟨(mkWp 0 10).pose, 0⟩ := by
    rw [decelPoint_eq_map, hd]
    simp only [Option.map_some']
    have h01 : MAX_DECEL * (0 : ℝ) < 1 := by rw [MAX_DECEL]; norm_num
    rw [if_pos h01]
    have hmin : min (0 : ℝ) (mkWp 0 10).speed = 0 := by
      apply min_eq_left
      rw [mkWp]
      norm_num
    rw [hmin]
  rw [decelerate_waypoints]
  show decelGo 0 wsSingle 0 0 [mkWp 0 10] = _
  rw [decelGo, hp]
  simp only [Option.bind_eq_bind, Option.some_bind]
  rw [decelGo]
  simp only [Option.some_bind]
  rfl

/-- Witness for C1: on the singleton window the rewrite emits one point whose
speed does not exceed the original speed. -/
theorem decelerate_waypoints_pointwise_spec_witness :
    decelerate_waypoints 0 wsSingle 0 = some [⟨(mkWp 0 10).pose, 0⟩] ∧
    ([⟨(mkWp 0 10).pose, 0⟩] : List Waypoint).length = wsSingle.length ∧
    getSpeed [⟨(mkWp 0 10).pose, 0⟩] 0 ≤ getSpeed wsSingle 0 := by
  obtain ⟨hlen, hpt⟩ :=
    decelerate_waypoints_pointwise_spec 0 0 wsSingle _ decel_wsSingle_eq
  refine ⟨decel_wsSingle_eq, hlen, ?_⟩
  obtain ⟨d, _, _, _, hle, _, _⟩ := hpt 0 (by simp [wsSingle])
  exact hle

/-! ### Claim C10: degenerate walks and the tail of the braking window -/

/-- Counterexample to C10 as stated: the degenerate walk `j = i` still indexes
`points[i]`, so on an empty list `distance([], 0, 0)` faults (modelled by
`none`) instead of returning 0, although `j ≤ i`. -/
theorem distance_degenerate_out_of_range :
    (0 : ℤ) ≤ 0 ∧ distance ([] : List Waypoint) 0 0 ≠ some 0 := by
  refine ⟨le_rfl, ?_⟩
  rw [show distance ([] : List Waypoint) 0 0 = none from rfl]
  simp

/-- C10 amended: `distance(points, i, j)` returns exactly 0 whenever `j < i`
(empty walk) and whenever `j = i` with `i` a valid index (degenerate walk);
consequently, in every deceleration rewrite whose window has nonnegative
original speeds, every point at window-local index at least `stopOffsetIdx`
is emitted with speed exactly 0. -/
theorem distance_degenerate_zero_and_tail_zero_speed :
    (∀ (ws : List Waypoint) (i j : ℤ), j < i → distance ws i j = some 0) ∧
    (∀ (ws : List Waypoint) (i : ℕ), i < ws.length →
      distance ws (i : ℤ) (i : ℤ) = some 0) ∧
    (∀ (s c : ℤ) (ws out : List Waypoint),
      decelerate_waypoints s ws c = some out →
      (∀ k, k < ws.length → 0 ≤ (ws.getD k default).speed) →
      ∀ i, i < ws.length → stop_idx s c ≤ (i : ℤ) → getSpeed out i = 0) := by
  refine ⟨fun ws i j h => distance_eq_zero_of_lt ws i j h,
    fun ws i h => distance_self ws i h, ?_⟩
  intro s c ws out hout hnn i hi hstop
  rw [decelerate_waypoints] at hout
  obtain ⟨hlen, hpt⟩ := decelGo_sound s ws c ws 0 out hout
  have h := hpt i hi
  rw [zero_add, decelPoint_eq_map] at h
  rw [Option.map_eq_some'] at h
  obtain ⟨d, hd, heq⟩ := h
  have hd0 : d = 0 := by
    rcases lt_or_eq_of_le hstop with hlt | heq2
    · rw [distance_eq_zero_of_lt ws _ _ hlt] at hd
      exact (Option.some.inj hd).symm
    · rw [heq2, distance_self ws i hi] at hd
      exact (Option.some.inj hd).symm
  subst hd0
  rw [getSpeed, ← heq]
  have h01 : MAX_DECEL * (0 : ℝ) < 1 := by rw [MAX_DECEL]; norm_num
  simp only
  rw [if_pos h01]
  exact min_eq_left (hnn i hi)

/-- Witness for C10 (amended): on the singleton window with the stop offset
at index 0 the emitted tail speed is exactly 0. -/
theorem distance_degenerate_zero_witness :
    decelerate_waypoints 0 wsSingle 0 = some [⟨(mkWp 0 10).pose, 0⟩] ∧
    getSpeed [⟨(mkWp 0 10).pose, 0⟩] 0 = 0 := by
  refine ⟨decel_wsSingle_eq, ?_⟩
  apply distance_degenerate_zero_and_tail_zero_speed.2.2 0 0 wsSingle _
    decel_wsSingle_eq
  · intro k hk
    have hk1 : k = 0 := by simp [wsSingle] at hk; omega
    subst hk1
    simp [wsSingle, mkWp]
  · simp [wsSingle]
  · decide

/-! ### Claim C7: monotone decay of the braking profile -/

theorem dl_mkWp (x₁ v₁ x₂ v₂ : ℝ) (h : x₁ ≤ x₂) :
    dl (mkWp x₁ v₁).pose.position (mkWp x₂ v₂).pose.position = x₂ - x₁ := by
  rw [mkWp, mkWp, dl]
  have harg : (x₁ - x₂) ^ 2 + ((0 : ℝ) - 0) ^ 2 + ((0 : ℝ) - 0) ^ 2 = (x₂ - x₁) ^ 2 := by
    ring
  simp only
  rw [harg, Real.sqrt_sq (by linarith)]

/-- Arc-length evaluations on the three-point window `wsTriple`. -/
theorem dist_wsTriple_0 : distance wsTriple ((0 : ℕ) : ℤ) (2 : ℤ) = some 10 := by
  have h := distance_eq_arc wsTriple 0 2 (by omega) (by simp [wsTriple])
  have harc : arcLength wsTriple 0 2 = 10 := by
    rw [arcLength, arcLength, arcLength]
    have h0 : posAt wsTriple 0 = (mkWp 0 0).pose.position := by
      simp [posAt, wsTriple]
    have h1 : posAt wsTriple 1 = (mkWp 0 10).pose.position := by
      simp [posAt, wsTriple]
    have h2 : posAt wsTriple 2 = (mkWp 10 10).pose.position := by
      simp [posAt, wsTriple]
    rw [h0, h1, h2, dl_mkWp 0 0 0 10 le_rfl, dl_mkWp 0 10 10 10 (by norm_num)]
    ring
  rw [harc] at h
  exact_mod_cast h

theorem dist_wsTriple_1 : distance wsTriple ((1 : ℕ) : ℤ) (2 : ℤ) = some 10 := by
  have h := distance_eq_arc wsTriple 1 2 (by omega) (by simp [wsTriple])
  have harc : arcLength wsTriple 1 1 = 10 := by
    rw [arcLength, arcLength]
    have h1 : posAt wsTriple 1 = (mkWp 0 10).pose.position := by
      simp [posAt, wsTriple]
    have h2 : posAt wsTriple 2 = (mkWp 10 10).pose.position := by
      simp [posAt, wsTriple]
    rw [h1, h2, dl_mkWp 0 10 10 10 (by norm_num)]
    ring
  rw [show 2 - 1 = 1 from rfl, harc] at h
  exact_mod_cast h

theorem dist_wsTriple_2 : distance wsTriple ((2 : ℕ) : ℤ) (2 : ℤ) = some 0 := by
  exact_mod_cast distance_self wsTriple 2 (by simp [wsTriple])

/-- The deceleration rewrite on `wsTriple` with stop line 6 and closest index
0 (stop offset 2): emitted speeds are 0, 2.8, 0. -/
theorem decel_wsTriple_eq :
    decelerate_waypoints 6 wsTriple 0 =
      some [⟨(mkWp 0 0).pose, 0⟩, ⟨(mkWp 0 10).pose, 2.8⟩, ⟨(mkWp 10 10).pose, 0⟩] := by
  have hstop : stop_idx 6 0 = 2 := by decide
  have h28 : MAX_DECEL * (10 : ℝ) = 2.8 := by rw [MAX_DECEL]; norm_num
  have hvel : (if MAX_DECEL * (10 : ℝ) < 1 then (0 : ℝ) else MAX_DECEL * 10) = 2.8 := by
    rw [if_neg (by rw [h28]; norm_num), h28]
  have hp0 : decelPoint 6 wsTriple 0 0 (mkWp 0 0) = some ⟨(mkWp 0 0).pose, 0⟩ := by
    rw [decelPoint_eq_map, hstop]
    rw [show distance wsTriple ((0 : ℕ) : ℤ) (2 : ℤ) = some 10 from dist_wsTriple_0]
    simp only [Option.map_some']
    rw [hvel]
    have hmin : min (2.8 : ℝ) (mkWp 0 0).speed = 0 := by
      rw [mkWp]
      simp only
      rw [min_eq_right (by norm_num)]
    rw [hmin]
  have hp1 : decelPoint 6 wsTriple 0 1 (mkWp 0 10) = some ⟨(mkWp 0 10).pose, 2.8⟩ := by
    rw [decelPoint_eq_map, hstop]
    rw [show distance wsTriple ((1 : ℕ) : ℤ) (2 : ℤ) = some 10 from dist_wsTriple_1]
    simp only [Option.map_some']
    rw [hvel]
    have hmin : min (2.8 : ℝ) (mkWp 0 10).speed = 2.8 := by
      rw [mkWp]
      simp only
      rw [min_eq_left (by norm_num)]
    rw [hmin]
  have hp2 : decelPoint 6 wsTriple 0 2 (mkWp 10 10) = some ⟨(mkWp 10 10).pose, 0⟩ := by
    rw [decelPoint_eq_map, hstop]
    rw [show distance wsTriple ((2 : ℕ) : ℤ) (2 : ℤ) = some 0 from dist_wsTriple_2]
    simp only [Option.map_some']
    have h01 : MAX_DECEL * (0 : ℝ) < 1 := by rw [MAX_DECEL]; norm_num
    rw [if_pos h01]
    have hmin : min (0 : ℝ) (mkWp 10 10).speed = 0 := by
      rw [mkWp]
      simp only
      rw [min_eq_left (by norm_num)]
    rw [hmin]
  rw [decelerate_waypoints]
  show decelGo 6 wsTriple 0 0 [mkWp 0 0, mkWp 0 10, mkWp 10 10] = _
  rw [decelGo, hp0]
  simp only [Option.bind_eq_bind, Option.some_bind]
  rw [decelGo, hp1]
  simp only [Option.bind_eq_bind, Option.some_bind]
  rw [decelGo, hp2]
  simp only [Option.bind_eq_bind, Option.some_bind]
  rw [decelGo]
  simp only [Option.some_bind]
  rfl

/-- Counterexample to C7 as stated: in the rewrite of `wsTriple` (stop line
6, closest index 0, stop offset 2) the emitted speed at window index 0 is 0
(the original speed there is 0) while at index 1 it is 2.8, so the emitted
speed strictly increases toward the stop offset. -/
theorem emitted_speed_not_monotone :
    (decelerate_waypoints 6 wsTriple 0).map
        (fun out => (getSpeed out 0, getSpeed out 1)) = some (0, 2.8) ∧
    (0 : ℤ) ≤ stop_idx 6 0 ∧ (1 : ℤ) ≤ stop_idx 6 0 ∧
    ¬((2.8 : ℝ) ≤ 0) := by
  refine ⟨?_, by decide, by decide, by norm_num⟩
  rw [decel_wsTriple_eq, Option.map_some']
  rw [getSpeed, getSpeed]
  simp only [List.getD_cons_succ, List.getD_cons_zero]

/-- C7 amended: the clamped target `v = clamp(0.28 * dist)` is non-increasing
toward the stop offset (the remaining distance is non-increasing); the
emitted speed `min(v, originalSpeed)` is therefore non-increasing whenever
the window's original speeds are non-increasing, but not in general. -/
theorem decel_target_speed_monotone (s c : ℤ) (ws out : List Waypoint)
    (hout : decelerate_waypoints s ws c = some out) (i : ℕ)
    (hi : i + 1 < ws.length) :
    ∃ d₁ d₂, distance ws (i : ℤ) (stop_idx s c) = some d₁ ∧
      distance ws ((i : ℤ) + 1) (stop_idx s c) = some d₂ ∧
      d₂ ≤ d₁ ∧
      (if MAX_DECEL * d₂ < 1 then 0 else MAX_DECEL * d₂) ≤
        (if MAX_DECEL * d₁ < 1 then 0 else MAX_DECEL * d₁) ∧
      ((ws.getD (i + 1) default).speed ≤ (ws.getD i default).speed →
        getSpeed out (i + 1) ≤ getSpeed out i) := by
  rw [decelerate_waypoints] at hout
  obtain ⟨hlen, hpt⟩ := decelGo_sound s ws c ws 0 out hout
  have h1 := hpt i (by omega)
  rw [zero_add, decelPoint_eq_map] at h1
  have h2 := hpt (i + 1) hi
  rw [zero_add, decelPoint_eq_map] at h2
  rw [Option.map_eq_some'] at h1 h2
  obtain ⟨d₁, hd₁, he₁⟩ := h1
  obtain ⟨d₂, hd₂, he₂⟩ := h2
  have hcast : ((i + 1 : ℕ) : ℤ) = (i : ℤ) + 1 := by push_cast; ring
  rw [hcast] at hd₂
  have hle : d₂ ≤ d₁ :=
    distance_antitone_step ws (stop_idx s c) (stop_idx_nonneg s c) i hi d₁ d₂ hd₁ hd₂
  have hvle : (if MAX_DECEL * d₂ < 1 then (0 : ℝ) else MAX_DECEL * d₂) ≤
      (if MAX_DECEL * d₁ < 1 then (0 : ℝ) else MAX_DECEL * d₁) := by
    apply clamp_mono
    have h28 : (0 : ℝ) ≤ MAX_DECEL := by rw [MAX_DECEL]; norm_num
    exact mul_le_mul_of_nonneg_left hle h28
  refine ⟨d₁, d₂, hd₁, hd₂, hle, hvle, ?_⟩
  intro horig
  rw [getSpeed, getSpeed, ← he₁, ← he₂]
  exact min_le_min hvle horig

/-- Arc-length evaluations on `wsPair` with the stop offset at index 1. -/
theorem dist_wsPair_stop0 : distance wsPair ((0 : ℕ) : ℤ) (stop_idx 5 0) = some 1 := by
  rw [show stop_idx 5 0 = ((1 : ℕ) : ℤ) from by decide]
  have h := distance_eq_arc wsPair 0 1 (by omega) (by simp [wsPair])
  have harc : arcLength wsPair 0 1 = 1 := by
    rw [arcLength, arcLength]
    have h0 : posAt wsPair 0 = (mkWp 0 10).pose.position := by simp [posAt, wsPair]
    have h1 : posAt wsPair 1 = (mkWp 1 10).pose.position := by simp [posAt, wsPair]
    rw [h0, h1, dl_mkWp 0 10 1 10 (by norm_num)]
    ring
  rw [harc] at h
  exact h

theorem dist_wsPair_stop1 :
    distance wsPair (((0 : ℕ) : ℤ) + 1) (stop_idx 5 0) = some 0 := by
  rw [show stop_idx 5 0 = ((1 : ℕ) : ℤ) from by decide,
    show ((0 : ℕ) : ℤ) + 1 = ((1 : ℕ) : ℤ) from by norm_num]
  exact distance_self wsPair 1 (by simp [wsPair])

/-- Witness for C7 (amended): on the two-point window `wsPair` with stop line
5 and closest index 0 the remaining distances toward the stop offset are 1
then 0, which is non-increasing. -/
theorem decel_target_speed_monotone_witness :
    distance wsPair ((0 : ℕ) : ℤ) (stop_idx 5 0) = some 1 ∧
    distance wsPair (((0 : ℕ) : ℤ) + 1) (stop_idx 5 0) = some 0 ∧
    (0 : ℝ) ≤ 1 := by
  have hs : (decelerate_waypoints 5 wsPair 0).isSome := by
    apply decelerate_isSome
    left
    rw [show wsPair.length = 2 from rfl]
    decide
  obtain ⟨out, hout⟩ := Option.isSome_iff_exists.mp hs
  obtain ⟨d₁, d₂, h1, h2, h3, _, _⟩ :=
    decel_target_speed_monotone 5 0 wsPair out hout 0 (by simp [wsPair])
  have e1 : d₁ = 1 :=
    Option.some.inj (h1.symm.trans dist_wsPair_stop0)
  have e2 : d₂ = 0 :=
    Option.some.inj (h2.symm.trans dist_wsPair_stop1)
  exact ⟨dist_wsPair_stop0, dist_wsPair_stop1, by rw [← e1, ← e2]; exact h3⟩

/-! ### Claim C9: the end-to-end braking example -/

theorem route200_length : route200.length = 200 := by
  simp [route200]

theorem route200_get? (k : ℕ) (hk : k < 200) :
    route200.get? k = some (mkWp (k : ℝ) 10) := by
  rw [route200, List.get?_map, List.get?_range hk]
  rfl

theorem w50_length : w50.length = 100 := by
  rw [w50, extractWindow_length, route200_length, LOOKAHEAD_WPS]
  omega

theorem w50_getD (i : ℕ) (hi : i < 100) :
    w50.getD i default = mkWp ((50 + i : ℕ) : ℝ) 10 := by
  rw [w50, List.getD_eq_get?,
    extractWindow_get? route200 50 LOOKAHEAD_WPS i (by rw [LOOKAHEAD_WPS]; omega),
    route200_get? (50 + i) (by omega)]
  rfl

theorem posAt_w50 (i : ℕ) (hi : i < 100) :
    posAt w50 i = (mkWp ((50 + i : ℕ) : ℝ) 10).pose.position := by
  rw [posAt, w50_getD i hi]

theorem arc_w50 (n : ℕ) :
    ∀ a : ℕ, a + n < 100 → arcLength w50 a n = (n : ℝ) := by
  induction n with
  | zero =>
      intro a _
      rw [arcLength]
      simp
  | succ n ih =>
      intro a ha
      rw [arcLength, posAt_w50 a (by omega), posAt_w50 (a + 1) (by omega),
        dl_mkWp _ 10 _ 10 (by push_cast; linarith), ih (a + 1) (by omega)]
      push_cast
      ring

theorem dist_w50_0 : distance w50 ((0 : ℕ) : ℤ) ((16 : ℕ) : ℤ) = some 16 := by
  have h := distance_eq_arc w50 0 16 (by omega) (by rw [w50_length]; omega)
  rw [show (16 - 0 : ℕ) = 16 from rfl, arc_w50 16 0 (by omega)] at h
  exact_mod_cast h

theorem dist_w50_16 : distance w50 ((16 : ℕ) : ℤ) ((16 : ℕ) : ℤ) = some 0 :=
  distance_self w50 16 (by rw [w50_length]; omega)

theorem posAt_route200 (i : ℕ) (hi : i < 200) :
    posAt route200 i = (mkWp ((i : ℕ) : ℝ) 10).pose.position := by
  rw [posAt, List.getD_eq_get?, route200_get? i hi]
  rfl

theorem arc_route200 (n : ℕ) :
    ∀ a : ℕ, a + n < 200 → arcLength route200 a n = (n : ℝ) := by
  induction n with
  | zero =>
      intro a _
      rw [arcLength]
      simp
  | succ n ih =>
      intro a ha
      rw [arcLength, posAt_route200 a (by omega), posAt_route200 (a + 1) (by omega),
        dl_mkWp _ 10 _ 10 (by push_cast; linarith), ih (a + 1) (by omega)]
      push_cast
      ring

theorem dist_route200_50_70 :
    distance route200 ((50 : ℕ) : ℤ) ((70 : ℕ) : ℤ) = some 20 := by
  have h := distance_eq_arc route200 50 70 (by omega) (by rw [route200_length]; omega)
  rw [show (70 - 50 : ℕ) = 20 from rfl, arc_route200 20 50 (by omega)] at h
  exact_mod_cast h

/-- C9: on the 200-point unit-spaced route with all speeds 10, vehicle at
index 50 with current speed 3 and stop line 70, the deceleration rewrite is
applied (`20/3` is not below the 3.0 stop-time threshold); the window point
at local index 0 sees remaining distance 16 and is emitted at speed
`min(0.28 * 16, 10) = 4.48`, and the point at local index 16 (the stop
offset) sees distance 0 and is emitted at speed 0. -/
theorem end_to_end_braking_example :
    stop_idx 70 50 = 16 ∧
    ¬((20 : ℝ) / 3 < MIN_STOP_TIME) ∧
    distance route200 ((50 : ℕ) : ℤ) ((70 : ℕ) : ℤ) = some 20 ∧
    distance w50 ((0 : ℕ) : ℤ) (stop_idx 70 50) = some 16 ∧
    distance w50 ((16 : ℕ) : ℤ) (stop_idx 70 50) = some 0 ∧
    ∃ out, generate_lane route200 50 70 3 false = some (out, true) ∧
      getSpeed out 0 = 4.48 ∧ getSpeed out 16 = 0 := by
  have hstop : stop_idx 70 50 = 16 := by decide
  have hstopc : stop_idx 70 ((50 : ℕ) : ℤ) = ((16 : ℕ) : ℤ) := by decide
  have hmst : ¬((20 : ℝ) / 3 < MIN_STOP_TIME) := by
    rw [MIN_STOP_TIME]
    norm_num
  have hdec : (decelerate_waypoints 70 w50 ((50 : ℕ) : ℤ)).isSome := by
    apply decelerate_isSome
    left
    rw [hstopc, w50_length]
    decide
  obtain ⟨out, hout⟩ := Option.isSome_iff_exists.mp hdec
  obtain ⟨hlen, hpt⟩ := decelGo_sound 70 w50 ((50 : ℕ) : ℤ) w50 0 out
    (by rw [decelerate_waypoints] at hout; exact hout)
  have hsp0 : getSpeed out 0 = 4.48 := by
    have h0 := hpt 0 (by rw [w50_length]; omega)
    rw [zero_add, decelPoint_eq_map, hstopc, dist_w50_0] at h0
    rw [Option.map_some'] at h0
    have heq := Option.some.inj h0
    rw [getSpeed, ← heq]
    have hv : MAX_DECEL * (16 : ℝ) = 4.48 := by rw [MAX_DECEL]; norm_num
    simp only
    rw [if_neg (by rw [hv]; norm_num), hv, w50_getD 0 (by omega), mkWp]
    simp only
    rw [min_eq_left (by norm_num)]
  have hsp16 : getSpeed out 16 = 0 := by
    have h16 := hpt 16 (by rw [w50_length]; omega)
    rw [zero_add, decelPoint_eq_map, hstopc, dist_w50_16] at h16
    rw [Option.map_some'] at h16
    have heq := Option.some.inj h16
    rw [getSpeed, ← heq]
    have hv : MAX_DECEL * (0 : ℝ) < 1 := by rw [MAX_DECEL]; norm_num
    simp only
    rw [if_pos hv, w50_getD 16 (by omega), mkWp]
    simp only
    rw [min_eq_left (by norm_num)]
  have hd70 : distance route200 ((50 : ℕ) : ℤ) (70 : ℤ) = some 20 := by
    exact_mod_cast dist_route200_50_70
  refine ⟨hstop, hmst, dist_route200_50_70,
    by rw [hstop]; exact_mod_cast dist_w50_0,
    by rw [hstop]; exact_mod_cast dist_w50_16, out, ?_, hsp0, hsp16⟩
  rw [generate_lane_inside route200 50 70 3 false (by decide), hd70]
  simp only [Option.some_bind]
  have hcond : ¬((20 : ℝ) / (if (3 : ℝ) < 0.1 then (0.1 : ℝ) else 3) < MIN_STOP_TIME ∧ True) := by
    intro hc
    obtain ⟨h1, _⟩ := hc
    rw [if_neg (by norm_num)] at h1
    exact hmst h1
  rw [if_neg hcond]
  rw [show extractWindow route200 50 LOOKAHEAD_WPS = w50 from rfl, hout]
  rfl

end WaypointUpdater
